import Mathlib

/-!
# Verification of the nimix mark-region allocator core

Shallow embedding of the nimix heap allocator (Rust) in Lean 4.

The embedding mirrors the source files:
* `constants.rs`     — numeric parameters;
* `block.rs` / `block_meta.rs` — raw block state: per-line mark bytes, one
  block-mark byte, the hole search `find_next_available_hole`, `free_unmarked`,
  and the mark entry (`BlockMeta::mark`);
* `bump_block.rs`    — `BumpBlock` with `cursor`/`limit`, `inner_alloc`,
  `reset_hole`, `current_hole_size`, `is_marked`;
* `large_block.rs`   — `LargeBlock` with a padded size and one mark byte;
* `block_store.rs`   — the four pools, `sweep`, `get_size`,
  `count_large_space`, `get_head`, `get_overflow`, `new_block`, `create_large`;
* `allocator.rs`     — the per-thread `Allocator` with `head`/`overflow`
  windows, `small_alloc` / `medium_alloc` loops and the refill protocol.

Machine integers are embedded as `Nat`; mark bytes are `Nat` values where the
source uses `u8` (generation marks are `1..=255`, `FREE_MARK = 0`).  Raw
pointers are embedded as `Nat` addresses.  The OS allocator is an oracle inside
the store state: `osSupply` counts the block allocations that will still
succeed and `nextBase` is the address handed out next.  Treiber stacks are
embedded as lists with the head as the top of the stack; `drain_to_vec` yields
the list in pop order and `push_from_iter` pushes each element in turn, so a
drain/re-push round trip reverses a stack.
-/

namespace Nimix

/-! ## Constants (`constants.rs`) -/

def FREE_MARK : Nat := 0
def BLOCK_SIZE : Nat := 1024 * 32
def LINE_SIZE : Nat := 128
def LINE_COUNT : Nat := BLOCK_SIZE / LINE_SIZE
def BLOCK_CAPACITY : Nat := BLOCK_SIZE - LINE_COUNT
def MAX_ALLOC_SIZE : Nat := 4294967295
def SMALL_OBJECT_MIN : Nat := 1
def SMALL_OBJECT_MAX : Nat := LINE_SIZE
def MEDIUM_OBJECT_MIN : Nat := SMALL_OBJECT_MAX + 1
def MEDIUM_OBJECT_MAX : Nat := BLOCK_CAPACITY
def LARGE_OBJECT_MIN : Nat := MEDIUM_OBJECT_MAX + 1
def LARGE_OBJECT_MAX : Nat := MAX_ALLOC_SIZE
def MAX_FREE_BLOCKS : Nat := 100
def RECYCLE_HOLE_MIN : Nat := LINE_SIZE * 5

/-- Offset of the data region inside a raw block in the `block.rs` revision:
one block-mark byte followed by `LINE_COUNT` line-mark bytes
(`block.rs`: "The memory layout is: mark (1 byte) | lines (LINE_COUNT bytes)
| data"), so the data pointer is the block base plus `1 + LINE_COUNT = 257`. -/
def META_CAPACITY : Nat := 1 + LINE_COUNT

/-! ## Errors and size classes (`error.rs`, spec §4.1) -/

inductive AllocError where
  | OOM
  | AllocOverflow
  | LayoutError
deriving Repr, DecidableEq

inductive SizeClass where
  | Small
  | Medium
  | Large
deriving Repr, DecidableEq

/-- Modelled from the spec: `SizeClass::get_for_size` lives in `size_class.rs`,
which is absent from the sources (only its callers are present).  Spec §4.1:
`Small : 1 ≤ size ≤ LINE_SIZE`, `Medium : LINE_SIZE < size ≤ DATA_CAPACITY`,
`Large : DATA_CAPACITY < size ≤ u32::MAX`, and `size = 0` or `size > u32::MAX`
is `AllocOverflow`; the bounds are the constants of `constants.rs`. -/
def SizeClass.get_for_size (size : Nat) : Except AllocError SizeClass :=
  if size = 0 then .error .AllocOverflow
  else if size ≤ SMALL_OBJECT_MAX then .ok .Small
  else if size ≤ MEDIUM_OBJECT_MAX then .ok .Medium
  else if size ≤ LARGE_OBJECT_MAX then .ok .Large
  else .error .AllocOverflow

/-! ## Raw blocks (`block.rs`) -/

/-- A raw 32 KiB block: its block-mark byte, its line-mark bytes (a total
function on line indices; the source array has `LINE_COUNT` entries and is
only ever indexed below `LINE_COUNT`), and the absolute address of its data
region (`Block::get_data_ptr(0)`). -/
structure Block where
  mark : Nat
  lines : Nat → Nat
  dataBase : Nat

/-- One step of the `for index in (0..starting_line).rev()` loop of
`find_next_available_hole` (`block.rs` / `block_meta.rs`, identical in both).
The first argument counts the indices still to visit, so the line inspected in
a step is `idx` when the argument is `idx + 1`; `count` is `free_line_count`
and `e` is the running `end`. -/
def findHoleLoop (lines : Nat → Nat) (req : Nat) : Nat → Nat → Nat → Option (Nat × Nat)
  | 0, _, _ => none
  | idx + 1, count, e =>
    if lines idx = FREE_MARK then
      if idx = 0 ∧ req ≤ count + 1 then
        some (e * LINE_SIZE, 0)
      else
        findHoleLoop lines req idx (count + 1) e
    else
      if req < count then
        some (e * LINE_SIZE, (idx + 2) * LINE_SIZE)
      else
        findHoleLoop lines req idx 0 idx

/-- `lines_required = alloc_size.div_ceil(LINE_SIZE)`. -/
def linesRequired (alloc_size : Nat) : Nat := (alloc_size + LINE_SIZE - 1) / LINE_SIZE

/-- `Block::find_next_available_hole` (`block.rs` lines 45–85; the
`BlockMeta::find_next_available_hole` of `block_meta.rs` is textually the
same). -/
def Block.find_next_available_hole (b : Block) (starting_at alloc_size : Nat) :
    Option (Nat × Nat) :=
  let starting_line := starting_at / LINE_SIZE
  findHoleLoop b.lines (linesRequired alloc_size) starting_line 0 starting_line

/-- `Block::free_unmarked`: clear the block mark unless it equals `mark`, and
clear every line mark (indices `0..LINE_COUNT`) that does not equal `mark`. -/
def Block.free_unmarked (b : Block) (m : Nat) : Block :=
  { b with
    mark := if b.mark = m then b.mark else FREE_MARK
    lines := fun i =>
      if i < LINE_COUNT then (if b.lines i = m then b.lines i else FREE_MARK)
      else b.lines i }

/-- `BlockMeta::mark` (`block_meta.rs` lines 40–59), the variant reachable from
the public `mark` entry in `lib.rs`; in this revision the data region starts at
the block base, so the block-relative offset of a pointer is
`addr % BLOCK_SIZE`.  Small objects mark their single starting line; otherwise
the loop `for i in line..end_line` marks the half-open range up to
`(relative_ptr + size) / LINE_SIZE`, and the block mark is set. -/
def BlockMeta.mark (b : Block) (addr size : Nat) (sc : SizeClass) (m : Nat) : Block :=
  let relative_ptr := addr % BLOCK_SIZE
  let line := relative_ptr / LINE_SIZE
  if sc = SizeClass.Small then
    { b with mark := m, lines := fun i => if i = line then m else b.lines i }
  else
    let relative_end := relative_ptr + size
    let end_line := relative_end / LINE_SIZE
    { b with mark := m,
             lines := fun i => if line ≤ i ∧ i < end_line then m else b.lines i }

/-! ## Bump blocks (`bump_block.rs`) -/

/-- `checked_sub` on `usize`. -/
def checkedSub (a b : Nat) : Option Nat := if b ≤ a then some (a - b) else none

/-- `BumpBlock`: a block plus the `cursor`/`limit` bump window. -/
structure BumpBlock where
  cursor : Nat
  limit : Nat
  block : Block

/-- `BumpBlock::new`: a freshly reset block (`Block::alloc` zeroes the block
mark and every line mark) with `cursor = BLOCK_CAPACITY`, `limit = 0`.  The
data-region base address of the freshly OS-allocated block is a parameter. -/
def BumpBlock.new (dataBase : Nat) : BumpBlock :=
  { cursor := BLOCK_CAPACITY
    limit := 0
    block := { mark := FREE_MARK, lines := fun _ => FREE_MARK, dataBase := dataBase } }

def BumpBlock.current_hole_size (b : BumpBlock) : Nat := b.cursor - b.limit

def BumpBlock.is_marked (b : BumpBlock) (m : Nat) : Bool := b.block.mark = m

/-- `BumpBlock::reset_hole`: run `free_unmarked`, then either reset the window
to the whole block (block no longer marked), adopt the first hole that fits at
least `SMALL_OBJECT_MIN` bytes, or close the window (`cursor = limit = 0`). -/
def BumpBlock.reset_hole (b : BumpBlock) (m : Nat) : BumpBlock :=
  let blk := b.block.free_unmarked m
  if blk.mark ≠ m then
    { cursor := BLOCK_CAPACITY, limit := 0, block := blk }
  else
    match blk.find_next_available_hole BLOCK_CAPACITY SMALL_OBJECT_MIN with
    | some (cursor, limit) => { cursor := cursor, limit := limit, block := blk }
    | none => { cursor := 0, limit := 0, block := blk }

/-- Align an address downward: the meaning of `addr & !(align - 1)` on `usize`
for the power-of-two `align` values `Layout` admits. -/
def alignDown (addr align : Nat) : Nat := addr - addr % align

/-- One pass structure of the `loop` in `BumpBlock::inner_alloc`
(`bump_block.rs` lines 45–80), fuel-indexed; the fuel strictly exceeds the
number of holes the loop can step through (each hole found starts strictly
below the previous `limit`).  Returns the allocation result — the absolute
pointer `block.get_data_ptr(next)` — together with the final state of the
block, since the Rust loop mutates `cursor`/`limit` even on a failing path. -/
def BumpBlock.innerAllocFuel : Nat → BumpBlock → Nat → Nat → Option Nat × BumpBlock
  | 0, b, _, _ => (none, b)
  | fuel + 1, b, size, align =>
    match checkedSub b.cursor size with
    | none => (none, b)
    | some potential_start =>
      let potential_addr := b.block.dataBase + potential_start
      let aligned_addr := alignDown potential_addr align
      let addr_adjustment := potential_addr - aligned_addr
      match checkedSub potential_start addr_adjustment with
      | none => (none, b)
      | some next =>
        if b.limit ≤ next then
          (some (b.block.dataBase + next), { b with cursor := next })
        else
          match b.block.find_next_available_hole b.limit size with
          | some (cursor, limit) =>
            BumpBlock.innerAllocFuel fuel { b with cursor := cursor, limit := limit } size align
          | none => (none, b)

/-- `BumpBlock::inner_alloc`: `limit + 1` units of fuel always suffice because
every hole the loop adopts has `limit` strictly below the previous one. -/
def BumpBlock.inner_alloc (b : BumpBlock) (size align : Nat) : Option Nat × BumpBlock :=
  BumpBlock.innerAllocFuel (b.limit + 1) b size align

/-! ## Large blocks (`large_block.rs`) -/

/-- `LargeBlock`: the padded backing size (`pad_to_align` of the object layout
extended by one mark byte) and the mark byte, initially `FREE_MARK`. -/
structure LargeBlock where
  size : Nat
  mark : Nat
deriving Repr, DecidableEq

def LargeBlock.is_marked (b : LargeBlock) (m : Nat) : Bool := b.mark = m

def LargeBlock.get_size (b : LargeBlock) : Nat := b.size

/-! ## The block store (`block_store.rs`) -/

/-- `BlockStore` together with the OS-allocator oracle.  Each stack is a list
whose head is the top of the stack.  `osSupply` is the number of OS block
allocations that will still succeed; `nextBase` is the data-region base address
the OS hands out next (fresh 32 KiB blocks are `BLOCK_SIZE`-aligned, so
successive data bases differ by `BLOCK_SIZE`). -/
structure BlockStore where
  block_count : Nat
  free : List BumpBlock
  recycle : List BumpBlock
  rest : List BumpBlock
  large : List LargeBlock
  osSupply : Nat
  nextBase : Nat

/-- `BlockStore::rest`: unconditionally push to the rest pool. -/
def BlockStore.pushRest (st : BlockStore) (b : BumpBlock) : BlockStore :=
  { st with rest := b :: st.rest }

/-- `BlockStore::recycle`: push to recycle when the current hole has at least
`RECYCLE_HOLE_MIN` bytes, else push to rest. -/
def BlockStore.pushRecycle (st : BlockStore) (b : BumpBlock) : BlockStore :=
  if RECYCLE_HOLE_MIN ≤ b.current_hole_size then { st with recycle := b :: st.recycle }
  else st.pushRest b

/-- `BlockStore::new_block`: `block_count` is incremented before the backing
allocation is attempted; the OS may refuse (`OOM`). -/
def BlockStore.new_block (st : BlockStore) : Except AllocError BumpBlock × BlockStore :=
  let st1 := { st with block_count := st.block_count + 1 }
  if st.osSupply = 0 then
    (.error .OOM, st1)
  else
    (.ok (BumpBlock.new st.nextBase),
     { st1 with osSupply := st.osSupply - 1, nextBase := st.nextBase + BLOCK_SIZE })

/-- `BlockStore::get_overflow`: pop a free block, else allocate a new one. -/
def BlockStore.get_overflow (st : BlockStore) : Except AllocError BumpBlock × BlockStore :=
  match st.free with
  | b :: rest => (.ok b, { st with free := rest })
  | [] => st.new_block

/-- `BlockStore::get_head`: pop a recycle block, else `get_overflow`. -/
def BlockStore.get_head (st : BlockStore) : Except AllocError BumpBlock × BlockStore :=
  match st.recycle with
  | b :: rest => (.ok b, { st with recycle := rest })
  | [] => st.get_overflow

/-- `BlockStore::create_large`: build the `LargeBlock` (padded size
`pad_to_align(obj_layout.extend(mark_byte))`, i.e. `size + 1` rounded up to
`align`), push it to the large pool and return the payload pointer, which the
OS aligns to `align`. -/
def BlockStore.create_large (st : BlockStore) (size align : Nat) :
    Except AllocError Nat × BlockStore :=
  let blockSize := (size + 1 + align - 1) / align * align
  if st.osSupply = 0 then
    (.error .OOM, st)
  else
    let p := st.nextBase + (align - st.nextBase % align) % align
    (.ok p,
     { st with large := { size := blockSize, mark := FREE_MARK } :: st.large
               osSupply := st.osSupply - 1
               nextBase := p + blockSize })

/-- `BlockStore::count_large_space`: drain the large stack, sum the sizes and
push everything back (which reverses the stack). -/
def BlockStore.count_large_space (st : BlockStore) : Nat × BlockStore :=
  let items := st.large
  let total := (items.map LargeBlock.get_size).sum
  (total, { st with large := items.reverse })

/-- `BlockStore::get_size`. -/
def BlockStore.get_size (st : BlockStore) : Nat × BlockStore :=
  let block_space := st.block_count * BLOCK_SIZE
  let p := st.count_large_space
  (block_space + p.1, p.2)

/-- The number of blocks `sweep(m)` moves to its `new_free` vector: the swept
blocks from the recycle and rest drains whose block mark did not survive. -/
def BlockStore.sweepNewFree (st : BlockStore) (m : Nat) : List BumpBlock :=
  (st.recycle.map (BumpBlock.reset_hole · m)).filter (fun b => ! b.is_marked m) ++
  (st.rest.map (BumpBlock.reset_hole · m)).filter (fun b => ! b.is_marked m)

/-- `BlockStore::sweep` (`block_store.rs` lines 93–154).  All three stacks are
drained; large blocks survive iff marked; recycle blocks are `reset_hole`-d and
re-pushed to recycle iff still marked; rest blocks are `reset_hole`-d and
promoted to recycle (marked with a big enough hole), kept in rest (marked) or
freed; at most `MAX_FREE_BLOCKS` of the `new_free` vector are pushed onto the
(undrained) free stack, the remainder is dropped, decrementing `block_count`.
`push_from_iter` onto a drained stack reverses each vector. -/
def BlockStore.sweep (st : BlockStore) (m : Nat) : BlockStore :=
  let new_large := st.large.filter (fun b => b.is_marked m)
  let processedRecycle := st.recycle.map (BumpBlock.reset_hole · m)
  let processedRest := st.rest.map (BumpBlock.reset_hole · m)
  let new_recycle :=
    processedRecycle.filter (fun b => b.is_marked m) ++
    processedRest.filter
      (fun b => b.is_marked m && decide (RECYCLE_HOLE_MIN ≤ b.current_hole_size))
  let new_rest :=
    processedRest.filter
      (fun b => b.is_marked m && ! decide (RECYCLE_HOLE_MIN ≤ b.current_hole_size))
  let new_free := st.sweepNewFree m
  { st with
    large := new_large.reverse
    recycle := new_recycle.reverse
    rest := new_rest.reverse
    free := (new_free.take MAX_FREE_BLOCKS).reverse ++ st.free
    block_count := st.block_count - (new_free.length - MAX_FREE_BLOCKS) }

/-! ## The allocator (`allocator.rs`) -/

/-- The observable outcome of an `Allocator::alloc` call in the fuel-indexed
model: a panic (a failed `assert!`), fuel exhaustion (the source loop has not
returned within the given number of refill iterations), an `AllocError`, or a
pointer. -/
inductive AllocResult where
  | panicked
  | outOfFuel
  | err (e : AllocError)
  | ok (addr : Nat)
deriving Repr, DecidableEq

/-- `Allocator`: the `head` and `overflow` windows (the shared store is passed
explicitly). -/
structure Allocator where
  head : Option BumpBlock
  overflow : Option BumpBlock

/-- `Allocator::head_alloc`. -/
def Allocator.head_alloc (a : Allocator) (size align : Nat) : Option Nat × Allocator :=
  match a.head with
  | some h =>
    let p := h.inner_alloc size align
    (p.1, { a with head := some p.2 })
  | none => (none, a)

/-- `Allocator::overflow_alloc`. -/
def Allocator.overflow_alloc (a : Allocator) (size align : Nat) : Option Nat × Allocator :=
  match a.overflow with
  | some o =>
    let p := o.inner_alloc size align
    (p.1, { a with overflow := some p.2 })
  | none => (none, a)

/-- `Allocator::get_new_head`: promote the overflow window if present, else
pull `store.get_head()` (on error the windows are untouched); the displaced
head goes to the store's rest pool. -/
def Allocator.get_new_head (a : Allocator) (st : BlockStore) :
    Except AllocError Unit × Allocator × BlockStore :=
  match a.overflow with
  | some b =>
    let st' := match a.head with
      | some old => st.pushRest old
      | none => st
    (.ok (), { head := some b, overflow := none }, st')
  | none =>
    match st.get_head with
    | (.ok b, st1) =>
      let st2 := match a.head with
        | some old => st1.pushRest old
        | none => st1
      (.ok (), { head := some b, overflow := none }, st2)
    | (.error e, st1) => (.error e, a, st1)

/-- `Allocator::get_new_overflow`: pull `store.get_overflow()` (on error the
windows are untouched); the displaced overflow goes back through
`store.recycle`. -/
def Allocator.get_new_overflow (a : Allocator) (st : BlockStore) :
    Except AllocError Unit × Allocator × BlockStore :=
  match st.get_overflow with
  | (.ok b, st1) =>
    let st2 := match a.overflow with
      | some old => st1.pushRecycle old
      | none => st1
    (.ok (), { a with overflow := some b }, st2)
  | (.error e, st1) => (.error e, a, st1)

/-- The `loop` of `Allocator::small_alloc`, fuel-indexed on refill rounds. -/
def Allocator.smallAllocFuel : Nat → Allocator → BlockStore → Nat → Nat →
    AllocResult × Allocator × BlockStore
  | 0, a, st, _, _ => (.outOfFuel, a, st)
  | fuel + 1, a, st, size, align =>
    match a.head_alloc size align with
    | (some ptr, a') => (.ok ptr, a', st)
    | (none, a') =>
      match a'.get_new_head st with
      | (.ok _, a'', st') => Allocator.smallAllocFuel fuel a'' st' size align
      | (.error e, a'', st') => (.err e, a'', st')

/-- The `loop` of `Allocator::medium_alloc`, fuel-indexed on refill rounds. -/
def Allocator.mediumAllocFuel : Nat → Allocator → BlockStore → Nat → Nat →
    AllocResult × Allocator × BlockStore
  | 0, a, st, _, _ => (.outOfFuel, a, st)
  | fuel + 1, a, st, size, align =>
    match a.overflow_alloc size align with
    | (some ptr, a') => (.ok ptr, a', st)
    | (none, a') =>
      match a'.get_new_overflow st with
      | (.ok _, a'', st') => Allocator.mediumAllocFuel fuel a'' st' size align
      | (.error e, a'', st') => (.err e, a'', st')

/-- `Allocator::alloc` (`allocator.rs` lines 30–54): the always-on
`assert!(layout.size() > 0)` fires before classification, then the size class
dispatches to `small_alloc`, `medium_alloc` or `store.create_large`. -/
def Allocator.alloc (fuel : Nat) (a : Allocator) (st : BlockStore) (size align : Nat) :
    AllocResult × Allocator × BlockStore :=
  if size = 0 then (.panicked, a, st)
  else
    match SizeClass.get_for_size size with
    | .error e => (.err e, a, st)
    | .ok .Small => Allocator.smallAllocFuel fuel a st size align
    | .ok .Medium => Allocator.mediumAllocFuel fuel a st size align
    | .ok .Large =>
      match st.create_large size align with
      | (.ok p, st') => (.ok p, a, st')
      | (.error e, st') => (.err e, a, st')

/-! ## Specification-side predicates -/

/-- A usable hole in the sense of spec §4.2: the lines `[lo, hi)` are FREE and
either the run reaches line 0 and holds at least `req` lines, or it is bounded
below by a non-FREE line at `lo - 1` and holds strictly more than `req` lines
(conservative marking). -/
def goodPair (lines : Nat → Nat) (req lo hi : Nat) : Prop :=
  (∀ k, lo ≤ k → k < hi → lines k = FREE_MARK) ∧
  ((lo = 0 ∧ req ≤ hi) ∨ (0 < lo ∧ lines (lo - 1) ≠ FREE_MARK ∧ lo + req < hi))

/-- Some usable hole lies entirely below `startLine`. -/
def HoleExists (lines : Nat → Nat) (startLine req : Nat) : Prop :=
  ∃ lo hi, hi ≤ startLine ∧ lo ≤ hi ∧ goodPair lines req lo hi

/-- A bump block whose window lies inside the data region and whose data-region
base sits `META_CAPACITY` bytes past a `BLOCK_SIZE`-aligned block base, as
`Block::alloc` produces in the `block.rs` revision. -/
def BlockOk (b : BumpBlock) : Prop :=
  b.cursor ≤ BLOCK_CAPACITY ∧ b.block.dataBase % BLOCK_SIZE = META_CAPACITY

/-- Every block an allocation loop can reach is `BlockOk` and fresh blocks
will be too. -/
def WellBased (a : Allocator) (st : BlockStore) : Prop :=
  (∀ b, a.head = some b → BlockOk b) ∧
  (∀ b, a.overflow = some b → BlockOk b) ∧
  (∀ b ∈ st.recycle, BlockOk b) ∧
  (∀ b ∈ st.free, BlockOk b) ∧
  st.nextBase % BLOCK_SIZE = META_CAPACITY

/-! ## Concrete instances used by witnesses and counterexamples -/

/-- A completely free raw block. -/
def allFreeBlock : Block := { mark := 0, lines := fun _ => 0, dataBase := 0 }

/-- C1: a fresh bump block of the `block_meta.rs` revision (data region at the
block base), block base `32768`. -/
def c1b0 : BumpBlock := BumpBlock.new 32768

/-- C1: the state after one medium allocation of 129 bytes. -/
def c1b1 : BumpBlock := (c1b0.inner_alloc 129 1).2

/-- C1: the state after a second medium allocation of 129 bytes. -/
def c1b2 : BumpBlock := (c1b1.inner_alloc 129 1).2

/-- C3: a marked block whose only free lines are 250 and 251, so its best hole
after a sweep spans a single usable line (128 bytes). -/
def c3block : Block :=
  { mark := 1, lines := fun i => if i = 250 ∨ i = 251 then 0 else 1, dataBase := 0 }

def c3bump : BumpBlock := { cursor := 0, limit := 0, block := c3block }

/-- C3: a store whose recycle pool holds `c3bump`. -/
def c3store : BlockStore :=
  { block_count := 1, free := [], recycle := [c3bump], rest := [], large := []
    osSupply := 0, nextBase := 257 }

/-- C3 witness: a marked, fully free block sitting in the rest pool. -/
def c3wBlock : Block := { mark := 1, lines := fun _ => 0, dataBase := 0 }

def c3wBump : BumpBlock := { cursor := 0, limit := 0, block := c3wBlock }

def c3wStore : BlockStore :=
  { block_count := 1, free := [], recycle := [], rest := [c3wBump], large := []
    osSupply := 0, nextBase := 257 }

def c3wOut : BumpBlock := c3wBump.reset_hole 1

/-- C4: a store with one leftover free block and 100 unmarked recycle blocks:
sweeping frees all 100 and pushes them on top of the leftover. -/
def c4store : BlockStore :=
  { block_count := 101, free := [BumpBlock.new 257]
    recycle := List.replicate 100 (BumpBlock.new 999), rest := [], large := []
    osSupply := 0, nextBase := 257 }

/-- An allocator with no windows. -/
def emptyAllocator : Allocator := { head := none, overflow := none }

/-- A store with empty pools whose OS oracle will honour `osSupply`
allocations; the first data-region base is `META_CAPACITY` as for a block at
address 0. -/
def emptyStore (osSupply : Nat) : BlockStore :=
  { block_count := 0, free := [], recycle := [], rest := [], large := []
    osSupply := osSupply, nextBase := META_CAPACITY }

/-- C8: an exhausted head window. -/
def c8head : BumpBlock := { cursor := 0, limit := 0, block := ⟨0, fun _ => 0, 257⟩ }

/-- C8: an exhausted block sitting in the recycle pool. -/
def c8rec : BumpBlock := { cursor := 0, limit := 0, block := ⟨0, fun _ => 0, 33025⟩ }

def c8alloc : Allocator := { head := some c8head, overflow := none }

/-- C8: a store that will hand out `c8rec` and then hit OOM. -/
def c8store : BlockStore :=
  { block_count := 2, free := [], recycle := [c8rec], rest := [], large := []
    osSupply := 0, nextBase := 65793 }

/-- C9/C10 witness store: one marked large block, one marked recycle block,
one unmarked rest block. -/
def c9store : BlockStore :=
  { block_count := 2, free := [], recycle := [c3bump], rest := [BumpBlock.new 257]
    large := [{ size := 40000, mark := 1 }], osSupply := 0, nextBase := 257 }

/-! ## Theorems

### Hole search (`find_next_available_hole`) -/

/-- Soundness of the scanning loop: any returned `(cursor, limit)` pair either
closes a free run reaching line 0 of at least `req` lines, or closes a free
run bounded below by a marked stop line holding strictly more than `req`
lines; in both cases `cursor` is the line-aligned top of the run.  The loop
invariant: `count` free lines have been seen, exactly the lines `[idx, e)`. -/
theorem findHoleLoop_sound (lines : Nat → Nat) (req : Nat) :
    ∀ idx count e c l, count = e - idx → idx ≤ e →
    (∀ k, idx ≤ k → k < e → lines k = FREE_MARK) →
    findHoleLoop lines req idx count e = some (c, l) →
    ∃ hi, c = hi * LINE_SIZE ∧ hi ≤ e ∧
      ((l = 0 ∧ (∀ k, k < hi → lines k = FREE_MARK) ∧ req ≤ hi) ∨
       (∃ s, l = (s + 2) * LINE_SIZE ∧ lines s ≠ FREE_MARK ∧
         (∀ k, s + 1 ≤ k → k < hi → lines k = FREE_MARK) ∧ s + 1 + req < hi)) := by
  intro idx
  induction idx with
  | zero =>
    intro count e c l _ _ _ h
    simp [findHoleLoop] at h
  | succ n ih =>
    intro count e c l hcount hle hfree h
    rw [findHoleLoop] at h
    by_cases hline : lines n = FREE_MARK
    · rw [if_pos hline] at h
      by_cases hret : n = 0 ∧ req ≤ count + 1
      · rw [if_pos hret] at h
        obtain ⟨rfl, hreq⟩ := hret
        injection h with h'
        injection h' with hc hl
        refine ⟨e, hc.symm, le_refl _, Or.inl ⟨hl.symm, ?_, by omega⟩⟩
        intro k hk
        rcases Nat.eq_zero_or_pos k with rfl | hkpos
        · exact hline
        · exact hfree k (by omega) hk
      · rw [if_neg hret] at h
        exact ih (count + 1) e c l (by omega) (by omega)
          (fun k hk1 hk2 => by
            rcases Nat.lt_or_ge k (n + 1) with hk | hk
            · have : k = n := by omega
              exact this ▸ hline
            · exact hfree k hk hk2) h
    · rw [if_neg hline] at h
      by_cases hret : req < count
      · rw [if_pos hret] at h
        injection h with h'
        injection h' with hc hl
        exact ⟨e, hc.symm, le_refl _,
          Or.inr ⟨n, hl.symm, hline, fun k hk1 hk2 => hfree k hk1 hk2, by omega⟩⟩
      · rw [if_neg hret] at h
        obtain ⟨hi, hc, hhi, hrest⟩ :=
          ih 0 n c l (by omega) (le_refl _) (fun k hk1 hk2 => by omega) h
        exact ⟨hi, hc, by omega, hrest⟩

/-- Completeness of the scanning loop: under the loop invariant, if a usable
hole still lies within reach — entirely among the unvisited lines `[0, idx)`,
or a run through `idx` merging with the current partial run `[idx, e)` — the
loop returns a hole. -/
theorem findHoleLoop_complete (lines : Nat → Nat) (req : Nat) (hreq : 1 ≤ req) :
    ∀ idx count e, count = e - idx → idx ≤ e →
    (∀ k, idx ≤ k → k < e → lines k = FREE_MARK) →
    (idx = 0 → e < req) →
    ((∃ lo hi, hi ≤ idx ∧ lo ≤ hi ∧ goodPair lines req lo hi) ∨
     (∃ lo, lo ≤ idx ∧ (∀ k, lo ≤ k → k < idx → lines k = FREE_MARK) ∧
       ((lo = 0 ∧ req ≤ e) ∨ (0 < lo ∧ lines (lo - 1) ≠ FREE_MARK ∧ lo + req < e)))) →
    (findHoleLoop lines req idx count e).isSome := by
  intro idx
  induction idx with
  | zero =>
    intro count e hcount hle hfree h0 hq
    exfalso
    rcases hq with ⟨lo, hi, hhi, hlohi, _, hgp⟩ | ⟨lo, hlo, _, hcond⟩
    · rcases hgp with ⟨hlo0, hhireq⟩ | ⟨hlopos, _, hbound⟩
      · omega
      · omega
    · rcases hcond with ⟨rfl, hreqe⟩ | ⟨hlopos, _, _⟩
      · have := h0 rfl
        omega
      · omega
  | succ n ih =>
    intro count e hcount hle hfree h0 hq
    rw [findHoleLoop]
    by_cases hline : lines n = FREE_MARK
    · rw [if_pos hline]
      by_cases hret : n = 0 ∧ req ≤ count + 1
      · rw [if_pos hret]
        simp
      · rw [if_neg hret]
        refine ih (count + 1) e (by clear hq; omega) (by clear hq; omega)
          (fun k hk1 hk2 => by
            rcases Nat.lt_or_ge k (n + 1) with hk | hk
            · have : k = n := by clear hq; omega
              exact this ▸ hline
            · exact hfree k hk hk2)
          (fun hn0 => by
            subst hn0
            have : ¬ req ≤ count + 1 := fun hc => hret ⟨rfl, hc⟩
            clear hq; omega) ?_
        rcases hq with ⟨lo, hi, hhi, hlohi, hgfree, hgcond⟩ | ⟨lo, hlo, hlfree, hcond⟩
        · rcases Nat.lt_or_ge hi (n + 1) with hhi' | hhi'
          · exact Or.inl ⟨lo, hi, by omega, hlohi, hgfree, hgcond⟩
          · -- hi = n + 1: convert to a run through n
            have hhieq : hi = n + 1 := by omega
            subst hhieq
            have hlon : lo ≤ n := by
              rcases hgcond with ⟨rfl, hr⟩ | ⟨_, _, hb⟩
              · omega
              · omega
            refine Or.inr ⟨lo, hlon, fun k hk1 hk2 => hgfree k hk1 (by omega), ?_⟩
            rcases hgcond with ⟨rfl, hr⟩ | ⟨hpos, hmk, hb⟩
            · exact Or.inl ⟨rfl, by omega⟩
            · exact Or.inr ⟨hpos, hmk, by omega⟩
        · rcases Nat.lt_or_ge lo (n + 1) with hlo' | hlo'
          · exact Or.inr ⟨lo, by omega,
              fun k hk1 hk2 => hlfree k hk1 (by omega), hcond⟩
          · -- lo = n + 1 is impossible: its condition needs lines n ≠ FREE
            have hloeq : lo = n + 1 := by omega
            subst hloeq
            rcases hcond with ⟨h', _⟩ | ⟨_, hmk, _⟩
            · omega
            · exact absurd hline (by simpa using hmk)
    · rw [if_neg hline]
      by_cases hret : req < count
      · rw [if_pos hret]
        simp
      · rw [if_neg hret]
        refine ih 0 n (by omega) (le_refl _) (fun k hk1 hk2 => by omega)
          (fun hn0 => by omega) ?_
        left
        rcases hq with ⟨lo, hi, hhi, hlohi, hgfree, hgcond⟩ | ⟨lo, hlo, hlfree, hcond⟩
        · rcases Nat.lt_or_ge hi (n + 1) with hhi' | hhi'
          · exact ⟨lo, hi, by omega, hlohi, hgfree, hgcond⟩
          · exfalso
            have hhieq : hi = n + 1 := by omega
            subst hhieq
            rcases Nat.lt_or_ge lo (n + 1) with hlo' | hlo'
            · exact hline (hgfree n (by omega) (by omega))
            · rcases hgcond with ⟨h', _⟩ | ⟨_, _, hb⟩
              · omega
              · omega
        · exfalso
          rcases Nat.lt_or_ge lo (n + 1) with hlo' | hlo'
          · exact hline (hlfree n (by omega) (by omega))
          · have hloeq : lo = n + 1 := by omega
            subst hloeq
            rcases hcond with ⟨h', _⟩ | ⟨_, _, hb⟩
            · omega
            · omega

theorem linesRequired_pos (a : Nat) (h : 1 ≤ a) : 1 ≤ linesRequired a := by
  have h128 : (0:Nat) < 128 := by norm_num
  simp only [linesRequired, LINE_SIZE]
  omega

theorem le_linesRequired_mul (a : Nat) : a ≤ linesRequired a * LINE_SIZE := by
  simp only [linesRequired, LINE_SIZE]
  have h := Nat.div_add_mod (a + 128 - 1) 128
  have h2 : (a + 128 - 1) % 128 < 128 := Nat.mod_lt _ (by norm_num)
  omega

/-- C2: `find_next_available_hole(starting_at, alloc_size)` is a correct and
complete hole search.  On `some (cursor, limit)`: the hole holds `alloc_size`
bytes, both bounds are line-aligned with `limit < cursor ≤ starting_at`, every
line of `[limit/LINE_SIZE, cursor/LINE_SIZE)` is FREE, and the conservative
rule holds — either `limit = 0` with at least `lines_required` free lines, or
`limit = (stop+2)·LINE_SIZE` for a non-FREE stop line with strictly more than
`lines_required` free lines above it.  `none` is returned iff no such hole
exists below `starting_at`. -/
theorem C2_find_next_available_hole_correct (b : Block) (starting_at alloc_size : Nat)
    (h1 : 1 ≤ alloc_size) (h2 : starting_at ≤ BLOCK_CAPACITY) :
    (∀ c l, b.find_next_available_hole starting_at alloc_size = some (c, l) →
      alloc_size ≤ c - l ∧ l < c ∧ c ≤ starting_at ∧
      (∀ k, l / LINE_SIZE ≤ k → k < c / LINE_SIZE → b.lines k = FREE_MARK) ∧
      ((l = 0 ∧ linesRequired alloc_size ≤ c / LINE_SIZE) ∨
       (2 * LINE_SIZE ≤ l ∧ b.lines (l / LINE_SIZE - 2) ≠ FREE_MARK ∧
        (∀ k, l / LINE_SIZE - 1 ≤ k → k < c / LINE_SIZE → b.lines k = FREE_MARK) ∧
        l / LINE_SIZE - 1 + linesRequired alloc_size < c / LINE_SIZE))) ∧
    (b.find_next_available_hole starting_at alloc_size = none ↔
      ¬ HoleExists b.lines (starting_at / LINE_SIZE) (linesRequired alloc_size)) := by
  have hLS : (0:Nat) < LINE_SIZE := by decide
  set req := linesRequired alloc_size with hreqdef
  have hreq1 : 1 ≤ req := linesRequired_pos alloc_size h1
  have hreqle : alloc_size ≤ req * LINE_SIZE := le_linesRequired_mul alloc_size
  set startLine := starting_at / LINE_SIZE with hsl
  have hunfold : b.find_next_available_hole starting_at alloc_size =
      findHoleLoop b.lines req startLine 0 startLine := rfl
  constructor
  · intro c l h
    rw [hunfold] at h
    obtain ⟨hi, hc, hhi, hcase⟩ :=
      findHoleLoop_sound b.lines req startLine 0 startLine c l (by omega) (le_refl _)
        (fun k hk1 hk2 => by omega) h
    have hclt : c ≤ starting_at := by
      calc c = hi * LINE_SIZE := hc
        _ ≤ startLine * LINE_SIZE := Nat.mul_le_mul_right _ hhi
        _ = starting_at / LINE_SIZE * LINE_SIZE := rfl
        _ ≤ starting_at := Nat.div_mul_le_self _ _
    have hcdiv : c / LINE_SIZE = hi := by
      rw [hc, Nat.mul_div_cancel _ hLS]
    rcases hcase with ⟨hl0, hfree, hreqhi⟩ | ⟨s, hls, hmk, hfree, hbound⟩
    · subst hl0
      refine ⟨?_, ?_, hclt, ?_, Or.inl ⟨rfl, by omega⟩⟩
      · calc alloc_size ≤ req * LINE_SIZE := hreqle
          _ ≤ hi * LINE_SIZE := Nat.mul_le_mul_right _ (by omega)
          _ = c - 0 := by omega
      · have : 0 < hi := by omega
        calc (0:Nat) < hi * LINE_SIZE := Nat.mul_pos this hLS
          _ = c := hc.symm
      · intro k _ hk2
        exact hfree k (by omega)
    · have hldiv : l / LINE_SIZE = s + 2 := by
        rw [hls, Nat.mul_div_cancel _ hLS]
      have hs2hi : s + 2 < hi := by omega
      refine ⟨?_, ?_, hclt, ?_, Or.inr ⟨?_, ?_, ?_, ?_⟩⟩
      · have hsub : c - l = (hi - (s + 2)) * LINE_SIZE := by
          rw [hc, hls, Nat.sub_mul]
        rw [hsub]
        calc alloc_size ≤ req * LINE_SIZE := hreqle
          _ ≤ (hi - (s + 2)) * LINE_SIZE := Nat.mul_le_mul_right _ (by omega)
      · rw [hc, hls]
        exact (Nat.mul_lt_mul_right hLS).mpr hs2hi
      · intro k hk1 hk2
        exact hfree k (by omega) (by omega)
      · rw [hls]
        exact Nat.mul_le_mul_right _ (by omega)
      · rw [hldiv]
        simpa using hmk
      · intro k hk1 hk2
        exact hfree k (by omega) (by omega)
      · omega
  · constructor
    · intro hnone hex
      obtain ⟨lo, hi, hhi, hlohi, hgp⟩ := hex
      have := findHoleLoop_complete b.lines req hreq1 startLine 0 startLine
        (by omega) (le_refl _) (fun k hk1 hk2 => by omega)
        (fun h0 => by omega)
        (Or.inl ⟨lo, hi, hhi, hlohi, hgp⟩)
      rw [hunfold] at hnone
      rw [hnone] at this
      simp at this
    · intro hnex
      rcases hfind : b.find_next_available_hole starting_at alloc_size with _ | ⟨c, l⟩
      · rfl
      · exfalso
        apply hnex
        rw [hunfold] at hfind
        obtain ⟨hi, hc, hhi, hcase⟩ :=
          findHoleLoop_sound b.lines req startLine 0 startLine c l (by omega) (le_refl _)
            (fun k hk1 hk2 => by omega) hfind
        rcases hcase with ⟨_, hfree, hreqhi⟩ | ⟨s, _, hmk, hfree, hbound⟩
        · exact ⟨0, hi, hhi, by omega, fun k _ hk2 => hfree k hk2, Or.inl ⟨rfl, hreqhi⟩⟩
        · exact ⟨s + 1, hi, hhi, by omega, fun k hk1 hk2 => hfree k hk1 hk2,
            Or.inr ⟨by omega, by simpa using hmk, by omega⟩⟩

/-- C2 witness: the hypotheses hold at a fully free block searched from
`BLOCK_CAPACITY` for one line. -/
theorem C2_find_next_available_hole_correct_witness :
    allFreeBlock.find_next_available_hole BLOCK_CAPACITY 128 = none ↔
      ¬ HoleExists allFreeBlock.lines (BLOCK_CAPACITY / LINE_SIZE) (linesRequired 128) :=
  (C2_find_next_available_hole_correct allFreeBlock BLOCK_CAPACITY 128
    (by decide) (by decide)).2

/-! ### Marking (`BlockMeta::mark`) -/

/-- C1 counterexample: the claim requires `mark` on a Medium object to set
every line up to `floor((offset + size − 1) / LINE_SIZE)` *inclusive*.  Take a
fresh block (block base 32768) and allocate 129 bytes twice; the second
allocation returns the pointer 65022 (block offset 32254, starting line 251).
The object covers bytes 32254–32382, i.e. lines 251 and 252, and
`floor((32254 + 129 − 1)/128) = 252`, so the claim requires line 252 to carry
the mark value 1 — but the source loop `for i in line..end_line` stops before
`end_line = (32254 + 129)/128 = 252` and leaves line 252 FREE (only line 251
is marked). -/
theorem C1_mark_counterexample :
    (c1b0.inner_alloc 129 1).1 = some 65151 ∧
    (c1b1.inner_alloc 129 1).1 = some 65022 ∧
    MEDIUM_OBJECT_MIN ≤ 129 ∧ 129 ≤ MEDIUM_OBJECT_MAX ∧
    65022 % BLOCK_SIZE = 32254 ∧
    (65022 % BLOCK_SIZE + 129 - 1) / LINE_SIZE = 252 ∧
    (BlockMeta.mark c1b2.block 65022 129 SizeClass.Medium 1).lines 251 = 1 ∧
    (BlockMeta.mark c1b2.block 65022 129 SizeClass.Medium 1).lines 252 = FREE_MARK ∧
    (BlockMeta.mark c1b2.block 65022 129 SizeClass.Medium 1).lines 252 ≠ 1 := by
  decide

/-- C1 amended: for a Medium-class object, `mark` sets the block mark to
`mark_value` and sets exactly the lines in the half-open range from the
starting line `(ptr mod BLOCK_SIZE) / LINE_SIZE` up to but excluding
`(offset + size) / LINE_SIZE`; every other line mark is left unchanged (the
final partially covered line is left to conservative marking). -/
theorem C1_mark_medium_range (b : Block) (addr size m i : Nat) :
    (BlockMeta.mark b addr size SizeClass.Medium m).mark = m ∧
    (addr % BLOCK_SIZE / LINE_SIZE ≤ i → i < (addr % BLOCK_SIZE + size) / LINE_SIZE →
      (BlockMeta.mark b addr size SizeClass.Medium m).lines i = m) ∧
    ((i < addr % BLOCK_SIZE / LINE_SIZE ∨ (addr % BLOCK_SIZE + size) / LINE_SIZE ≤ i) →
      (BlockMeta.mark b addr size SizeClass.Medium m).lines i = b.lines i) := by
  have hsc : ¬ (SizeClass.Medium = SizeClass.Small) := by decide
  simp only [BlockMeta.mark, if_neg hsc]
  refine ⟨trivial, ?_, ?_⟩
  · intro h1 h2
    simp only [if_pos (And.intro h1 h2)]
  · intro h
    rw [if_neg (by omega)]

/-- C1 witness: the amended range at a concrete in-range line. -/
theorem C1_mark_medium_range_witness :
    (BlockMeta.mark allFreeBlock 65022 129 SizeClass.Medium 7).lines 251 = 7 :=
  (C1_mark_medium_range allFreeBlock 65022 129 7 251).2.1 (by decide) (by decide)

/-! ### Large-space accounting (`count_large_space`, `get_size`) -/

/-- C10: `count_large_space` returns the sum of the stored large blocks'
sizes and leaves the store observably unchanged: the large pool holds the same
multiset of blocks (the drain/re-push reverses stack order), and
`block_count` and the free, recycle and rest pools are untouched; `get_size`
returns `block_count · BLOCK_SIZE` plus that sum. -/
theorem C10_count_large_space_frame (st : BlockStore) :
    st.count_large_space.1 = (st.large.map LargeBlock.get_size).sum ∧
    (st.count_large_space.2.large : Multiset LargeBlock) =
      (st.large : Multiset LargeBlock) ∧
    st.count_large_space.2.block_count = st.block_count ∧
    st.count_large_space.2.free = st.free ∧
    st.count_large_space.2.recycle = st.recycle ∧
    st.count_large_space.2.rest = st.rest ∧
    st.get_size.1 = st.block_count * BLOCK_SIZE + (st.large.map LargeBlock.get_size).sum ∧
    st.get_size.2 = st.count_large_space.2 :=
  ⟨rfl, Multiset.coe_eq_coe.mpr (List.reverse_perm st.large), rfl, rfl, rfl, rfl, rfl, rfl⟩

/-! ### Sweep: the free-pool cap (C4) -/

/-- C4 counterexample: the claim bounds the whole free pool by
`MAX_FREE_BLOCKS = 100` after sweep.  But `sweep` never drains the free pool:
with one leftover free block and 100 unmarked recycle blocks, sweep pushes all
100 freed blocks (the cap counts only newly pushed blocks) on top of the
leftover, leaving 101 blocks in the free pool and dropping nothing. -/
theorem C4_sweep_free_cap_counterexample :
    (c4store.sweep 1).free.length = 101 ∧ MAX_FREE_BLOCKS = 100 ∧
    c4store.free.length = 1 ∧ c4store.recycle.length = 100 ∧
    (c4store.sweep 1).block_count = c4store.block_count := by
  decide

/-- C4 amended: `sweep` pushes at most `MAX_FREE_BLOCKS` of the newly freed
blocks into the (undrained) free pool — so the pool grows by
`min |new_free| MAX_FREE_BLOCKS` and is bounded by its previous length plus
`MAX_FREE_BLOCKS` — and each newly freed block beyond that cap is dropped with
`block_count` decremented by one for it. -/
theorem C4_sweep_free_cap (st : BlockStore) (m : Nat) :
    (st.sweep m).free.length =
      st.free.length + min MAX_FREE_BLOCKS (st.sweepNewFree m).length ∧
    (st.sweep m).block_count =
      st.block_count - ((st.sweepNewFree m).length - MAX_FREE_BLOCKS) ∧
    (st.sweep m).free.length ≤ st.free.length + MAX_FREE_BLOCKS := by
  have h1 : (st.sweep m).free =
      ((st.sweepNewFree m).take MAX_FREE_BLOCKS).reverse ++ st.free := rfl
  have h2 : (st.sweep m).block_count =
      st.block_count - ((st.sweepNewFree m).length - MAX_FREE_BLOCKS) := rfl
  have h3 : (st.sweep m).free.length =
      st.free.length + min MAX_FREE_BLOCKS (st.sweepNewFree m).length := by
    rw [h1]
    simp [List.length_append, List.length_reverse, List.length_take, Nat.add_comm]
  refine ⟨h3, h2, ?_⟩
  rw [h3]
  have := Nat.min_le_left MAX_FREE_BLOCKS (st.sweepNewFree m).length
  omega

/-! ### Sweep: the recycle-pool hole invariant (C3) -/

/-- C3 counterexample: a marked block whose only free lines are 250 and 251
sits in the recycle pool.  `sweep(1)` drains it, `reset_hole` adopts the only
conservative hole — a single usable line, 128 bytes — and, because the block
is still marked, re-pushes it to recycle *without* checking the hole size.
After sweep the recycle pool holds a block with
`current_hole_size = 128 < RECYCLE_HOLE_MIN = 640`. -/
theorem C3_sweep_recycle_hole_counterexample :
    ((c3store.sweep 1).recycle.map (fun b => b.current_hole_size)) = [128] ∧
    RECYCLE_HOLE_MIN = 640 ∧ ¬ (128 : Nat) ≥ RECYCLE_HOLE_MIN := by
  decide

/-- C3 amended: after `sweep(m)`, every block in the recycle pool is still
marked with `m`, and it either was re-pushed from the recycle drain (a
`reset_hole` image of a previously recycled block, re-pushed solely because it
is still marked, with no constraint on its hole) or came from the rest drain
and then satisfies `current_hole_size ≥ RECYCLE_HOLE_MIN`. -/
theorem C3_sweep_recycle_classified (st : BlockStore) (m : Nat) (b : BumpBlock)
    (hb : b ∈ (st.sweep m).recycle) :
    b.is_marked m = true ∧
    (b ∈ st.recycle.map (BumpBlock.reset_hole · m) ∨
     RECYCLE_HOLE_MIN ≤ b.current_hole_size) := by
  have hb' : b ∈
      ((st.recycle.map (BumpBlock.reset_hole · m)).filter (fun b => b.is_marked m) ++
       (st.rest.map (BumpBlock.reset_hole · m)).filter
         (fun b => b.is_marked m && decide (RECYCLE_HOLE_MIN ≤ b.current_hole_size))).reverse :=
    hb
  rw [List.mem_reverse] at hb'
  rcases List.mem_append.mp hb' with h | h
  · obtain ⟨hmem, hpred⟩ := List.mem_filter.mp h
    exact ⟨hpred, Or.inl hmem⟩
  · obtain ⟨_, hpred⟩ := List.mem_filter.mp h
    rw [Bool.and_eq_true, decide_eq_true_eq] at hpred
    exact ⟨hpred.1, Or.inr hpred.2⟩

set_option maxRecDepth 100000 in
/-- C3 witness: a marked fully-free block in the rest pool is promoted into
recycle by sweep; the amended classification applies to it. -/
theorem C3_sweep_recycle_classified_witness :
    c3wOut ∈ (c3wStore.sweep 1).recycle ∧
    (c3wOut.is_marked 1 = true ∧
     (c3wOut ∈ c3wStore.recycle.map (BumpBlock.reset_hole · 1) ∨
      RECYCLE_HOLE_MIN ≤ c3wOut.current_hole_size)) := by
  have hmem : c3wOut ∈ (c3wStore.sweep 1).recycle := by
    have h : (c3wStore.sweep 1).recycle = [c3wOut] := by rfl
    rw [h]
    exact List.mem_singleton.mpr rfl
  exact ⟨hmem, C3_sweep_recycle_classified c3wStore 1 c3wOut hmem⟩

/-! ### Sweep idempotence (C9) -/

theorem free_unmarked_idem (b : Block) (m : Nat) (hm : m ≠ 0) :
    (b.free_unmarked m).free_unmarked m = b.free_unmarked m := by
  have h0m : ¬ ((0 : Nat) = m) := fun h => hm h.symm
  simp only [Block.free_unmarked, FREE_MARK]
  refine congrArg₂ (fun x y => Block.mk x y b.dataBase) ?_ ?_
  · by_cases hbm : b.mark = m
    · simp [hbm]
    · simp [hbm, h0m]
  · funext i
    by_cases hi : i < LINE_COUNT
    · by_cases hbl : b.lines i = m
      · simp [hi, hbl]
      · simp [hi, hbl, h0m]
    · simp [hi]

theorem free_unmarked_mark (b : Block) (m : Nat) (hm : m ≠ 0) :
    ((b.free_unmarked m).mark = m) = (b.mark = m) := by
  simp only [Block.free_unmarked, FREE_MARK]
  by_cases hbm : b.mark = m
  · simp [hbm]
  · simp [hbm]
    exact fun h => hm h.symm

theorem reset_hole_block (b : BumpBlock) (m : Nat) :
    (b.reset_hole m).block = b.block.free_unmarked m := by
  simp only [BumpBlock.reset_hole]
  split
  · rfl
  · split <;> rfl

theorem reset_hole_idem (b : BumpBlock) (m : Nat) (hm : m ≠ 0) :
    (b.reset_hole m).reset_hole m = b.reset_hole m := by
  by_cases hmark : (b.block.free_unmarked m).mark = m
  · rcases hh : (b.block.free_unmarked m).find_next_available_hole BLOCK_CAPACITY
        SMALL_OBJECT_MIN with _ | ⟨c, l⟩
    · have h1 : b.reset_hole m = ⟨0, 0, b.block.free_unmarked m⟩ := by
        simp only [BumpBlock.reset_hole, hh]
        rw [if_neg (by simpa using hmark)]
      rw [h1]
      simp only [BumpBlock.reset_hole, free_unmarked_idem b.block m hm, hh]
      rw [if_neg (by simpa using hmark)]
    · have h1 : b.reset_hole m = ⟨c, l, b.block.free_unmarked m⟩ := by
        simp only [BumpBlock.reset_hole, hh]
        rw [if_neg (by simpa using hmark)]
      rw [h1]
      simp only [BumpBlock.reset_hole, free_unmarked_idem b.block m hm, hh]
      rw [if_neg (by simpa using hmark)]
  · have h1 : b.reset_hole m = ⟨BLOCK_CAPACITY, 0, b.block.free_unmarked m⟩ := by
      simp only [BumpBlock.reset_hole]
      rw [if_pos (by simpa using hmark)]
    have hmark2 : ¬ ((b.block.free_unmarked m).free_unmarked m).mark = m := by
      rw [free_unmarked_idem b.block m hm]
      exact hmark
    rw [h1]
    simp only [BumpBlock.reset_hole]
    rw [if_pos (by simpa using hmark2), free_unmarked_idem b.block m hm]

theorem reset_hole_is_marked (b : BumpBlock) (m : Nat) (hm : m ≠ 0) :
    ((b.reset_hole m).is_marked m) = (b.is_marked m) := by
  simp only [BumpBlock.is_marked, reset_hole_block, free_unmarked_mark b.block m hm]

theorem list_map_id_of_mem {α : Type} (l : List α) (f : α → α)
    (h : ∀ x ∈ l, f x = x) : l.map f = l := by
  induction l with
  | nil => rfl
  | cons a t ih =>
    simp only [List.map_cons, h a (List.mem_cons_self a t),
      ih (fun x hx => h x (List.mem_cons_of_mem a hx))]

/-- C9: sweeping twice with the same mark value reclaims nothing more: the
second sweep drops no block (`block_count` and the large-pool size are
unchanged), leaves the free pool identical, and leaves the recycle, rest and
large pools the same as multisets of blocks. -/
theorem C9_sweep_idempotent (st : BlockStore) (m : Nat) (hm : m ≠ 0) :
    ((st.sweep m).sweep m).block_count = (st.sweep m).block_count ∧
    ((st.sweep m).sweep m).free = (st.sweep m).free ∧
    (((st.sweep m).sweep m).recycle : Multiset BumpBlock) =
      ((st.sweep m).recycle : Multiset BumpBlock) ∧
    (((st.sweep m).sweep m).rest : Multiset BumpBlock) =
      ((st.sweep m).rest : Multiset BumpBlock) ∧
    (((st.sweep m).sweep m).large : Multiset LargeBlock) =
      ((st.sweep m).large : Multiset LargeBlock) ∧
    ((st.sweep m).sweep m).large.length = (st.sweep m).large.length := by
  set st1 := st.sweep m with hst1
  -- the pools produced by the first sweep
  have hrec1 : st1.recycle =
      ((st.recycle.map (BumpBlock.reset_hole · m)).filter (fun b => b.is_marked m) ++
       (st.rest.map (BumpBlock.reset_hole · m)).filter
         (fun b => b.is_marked m && decide (RECYCLE_HOLE_MIN ≤ b.current_hole_size))).reverse :=
    rfl
  have hrest1 : st1.rest =
      ((st.rest.map (BumpBlock.reset_hole · m)).filter
        (fun b => b.is_marked m && ! decide (RECYCLE_HOLE_MIN ≤ b.current_hole_size))).reverse :=
    rfl
  have hlarge1 : st1.large = (st.large.filter (fun b => b.is_marked m)).reverse := rfl
  -- every block of the recycle pool after a sweep is a marked reset_hole fixpoint
  have hA : ∀ x ∈ st1.recycle, x.reset_hole m = x ∧ x.is_marked m = true := by
    intro x hx
    rw [hrec1, List.mem_reverse] at hx
    rcases List.mem_append.mp hx with h | h
    · obtain ⟨hmem, hpred⟩ := List.mem_filter.mp h
      obtain ⟨y, _, rfl⟩ := List.mem_map.mp hmem
      exact ⟨reset_hole_idem y m hm, hpred⟩
    · obtain ⟨hmem, hpred⟩ := List.mem_filter.mp h
      obtain ⟨y, _, rfl⟩ := List.mem_map.mp hmem
      rw [Bool.and_eq_true] at hpred
      exact ⟨reset_hole_idem y m hm, hpred.1⟩
  -- every block of the rest pool after a sweep is a marked, small-hole fixpoint
  have hR : ∀ x ∈ st1.rest, x.reset_hole m = x ∧ x.is_marked m = true ∧
      ¬ RECYCLE_HOLE_MIN ≤ x.current_hole_size := by
    intro x hx
    rw [hrest1, List.mem_reverse] at hx
    obtain ⟨hmem, hpred⟩ := List.mem_filter.mp hx
    obtain ⟨y, _, rfl⟩ := List.mem_map.mp hmem
    rw [Bool.and_eq_true, Bool.not_eq_true', decide_eq_false_iff_not] at hpred
    exact ⟨reset_hole_idem y m hm, hpred.1, hpred.2⟩
  -- every large block surviving a sweep is marked
  have hL : ∀ x ∈ st1.large, x.is_marked m = true := by
    intro x hx
    rw [hlarge1, List.mem_reverse] at hx
    exact (List.mem_filter.mp hx).2
  -- the second sweep's drains
  have hmapA : st1.recycle.map (BumpBlock.reset_hole · m) = st1.recycle :=
    list_map_id_of_mem _ _ (fun x hx => (hA x hx).1)
  have hmapR : st1.rest.map (BumpBlock.reset_hole · m) = st1.rest :=
    list_map_id_of_mem _ _ (fun x hx => (hR x hx).1)
  have hfilA : st1.recycle.filter (fun b => b.is_marked m) = st1.recycle :=
    List.filter_eq_self.mpr (fun x hx => (hA x hx).2)
  have hfilR : st1.rest.filter
      (fun b => b.is_marked m && decide (RECYCLE_HOLE_MIN ≤ b.current_hole_size)) = [] := by
    rw [List.filter_eq_nil_iff]
    intro x hx
    obtain ⟨_, _, hsmall⟩ := hR x hx
    simp [hsmall]
  have hfilR2 : st1.rest.filter
      (fun b => b.is_marked m && ! decide (RECYCLE_HOLE_MIN ≤ b.current_hole_size)) =
      st1.rest := by
    rw [List.filter_eq_self]
    intro x hx
    obtain ⟨_, hmk, hsmall⟩ := hR x hx
    simp [hmk, hsmall]
  have hfilAfree : st1.recycle.filter (fun b => ! b.is_marked m) = [] := by
    rw [List.filter_eq_nil_iff]
    intro x hx
    simp [(hA x hx).2]
  have hfilRfree : st1.rest.filter (fun b => ! b.is_marked m) = [] := by
    rw [List.filter_eq_nil_iff]
    intro x hx
    simp [(hR x hx).2.1]
  have hfilL : st1.large.filter (fun b => b.is_marked m) = st1.large :=
    List.filter_eq_self.mpr (fun x hx => hL x hx)
  have hnf : st1.sweepNewFree m = [] := by
    simp only [BlockStore.sweepNewFree, hmapA, hmapR, hfilAfree, hfilRfree, List.append_nil]
  refine ⟨?_, ?_, ?_, ?_, ?_, ?_⟩
  · show st1.block_count - ((st1.sweepNewFree m).length - MAX_FREE_BLOCKS) = st1.block_count
    rw [hnf]
    simp [MAX_FREE_BLOCKS]
  · show ((st1.sweepNewFree m).take MAX_FREE_BLOCKS).reverse ++ st1.free = st1.free
    rw [hnf]
    simp
  · show ((((st1.recycle.map (BumpBlock.reset_hole · m)).filter (fun b => b.is_marked m)) ++
        ((st1.rest.map (BumpBlock.reset_hole · m)).filter
          (fun b => b.is_marked m && decide (RECYCLE_HOLE_MIN ≤ b.current_hole_size)))).reverse
        : Multiset BumpBlock) = (st1.recycle : Multiset BumpBlock)
    rw [hmapA, hmapR, hfilA, hfilR, List.append_nil]
    exact Multiset.coe_eq_coe.mpr (List.reverse_perm st1.recycle)
  · show (((st1.rest.map (BumpBlock.reset_hole · m)).filter
        (fun b => b.is_marked m && ! decide (RECYCLE_HOLE_MIN ≤ b.current_hole_size))).reverse
        : Multiset BumpBlock) = (st1.rest : Multiset BumpBlock)
    rw [hmapR, hfilR2]
    exact Multiset.coe_eq_coe.mpr (List.reverse_perm st1.rest)
  · show (((st1.large.filter (fun b => b.is_marked m)).reverse : List LargeBlock)
        : Multiset LargeBlock) = (st1.large : Multiset LargeBlock)
    rw [hfilL]
    exact Multiset.coe_eq_coe.mpr (List.reverse_perm st1.large)
  · show ((st1.large.filter (fun b => b.is_marked m)).reverse).length = st1.large.length
    rw [hfilL, List.length_reverse]

/-- C9 witness: the hypothesis `m ≠ 0` discharged at `m = 1` on a concrete
store. -/
theorem C9_sweep_idempotent_witness :
    ((c9store.sweep 1).sweep 1).block_count = (c9store.sweep 1).block_count ∧
    ((c9store.sweep 1).sweep 1).free = (c9store.sweep 1).free ∧
    (((c9store.sweep 1).sweep 1).recycle : Multiset BumpBlock) =
      ((c9store.sweep 1).recycle : Multiset BumpBlock) ∧
    (((c9store.sweep 1).sweep 1).rest : Multiset BumpBlock) =
      ((c9store.sweep 1).rest : Multiset BumpBlock) ∧
    (((c9store.sweep 1).sweep 1).large : Multiset LargeBlock) =
      ((c9store.sweep 1).large : Multiset LargeBlock) ∧
    ((c9store.sweep 1).sweep 1).large.length = (c9store.sweep 1).large.length :=
  C9_sweep_idempotent c9store 1 (by decide)

/-! ### Alignment of allocation (C5) -/

theorem checkedSub_eq_some (a b : Nat) (h : b ≤ a) : checkedSub a b = some (a - b) :=
  if_pos h

theorem checkedSub_eq_none (a b : Nat) (h : ¬ b ≤ a) : checkedSub a b = none :=
  if_neg h

/-- Any pointer produced by `inner_alloc` is the align-down of the absolute
candidate address, hence a multiple of `align` — for any data-region base. -/
theorem innerAllocFuel_aligned (size align : Nat) :
    ∀ (fuel : Nat) (b : BumpBlock) (addr : Nat),
    (BumpBlock.innerAllocFuel fuel b size align).1 = some addr → addr % align = 0 := by
  intro fuel
  induction fuel with
  | zero =>
    intro b addr h
    simp [BumpBlock.innerAllocFuel] at h
  | succ n ih =>
    intro b addr h
    unfold BumpBlock.innerAllocFuel at h
    by_cases h1 : size ≤ b.cursor
    · rw [checkedSub_eq_some _ _ h1] at h
      dsimp only at h
      by_cases h2 : b.block.dataBase + (b.cursor - size) -
          alignDown (b.block.dataBase + (b.cursor - size)) align ≤ b.cursor - size
      · rw [checkedSub_eq_some _ _ h2] at h
        dsimp only at h
        by_cases h3 : b.limit ≤ b.cursor - size -
            (b.block.dataBase + (b.cursor - size) -
              alignDown (b.block.dataBase + (b.cursor - size)) align)
        · rw [if_pos h3] at h
          dsimp only at h
          rw [Option.some.injEq] at h
          have haddr : addr = b.block.dataBase + (b.cursor - size -
              (b.block.dataBase + (b.cursor - size) -
                alignDown (b.block.dataBase + (b.cursor - size)) align)) := h.symm
          have hmodle : (b.block.dataBase + (b.cursor - size)) % align ≤
              b.block.dataBase + (b.cursor - size) :=
            Nat.mod_le _ _
          have hadj : b.block.dataBase + (b.cursor - size) -
              alignDown (b.block.dataBase + (b.cursor - size)) align =
              (b.block.dataBase + (b.cursor - size)) % align := by
            simp only [alignDown]
            omega
          rw [hadj] at haddr h2
          have hdm := Nat.div_add_mod (b.block.dataBase + (b.cursor - size)) align
          have haddr2 : addr = align * ((b.block.dataBase + (b.cursor - size)) / align) := by
            omega
          rw [haddr2]
          exact Nat.mul_mod_right align _
        · rw [if_neg h3] at h
          rcases hh : b.block.find_next_available_hole b.limit size with _ | ⟨c, l⟩
          · rw [hh] at h
            simp at h
          · rw [hh] at h
            exact ih _ _ h
      · rw [checkedSub_eq_none _ _ h2] at h
        simp at h
    · rw [checkedSub_eq_none _ _ h1] at h
      simp at h

theorem inner_alloc_aligned (b : BumpBlock) (size align addr : Nat)
    (h : (b.inner_alloc size align).1 = some addr) : addr % align = 0 :=
  innerAllocFuel_aligned size align _ b addr h

theorem alignUp_mod (nb align : Nat) (halign : 1 ≤ align) :
    (nb + (align - nb % align) % align) % align = 0 := by
  by_cases h0 : nb % align = 0
  · rw [h0, Nat.sub_zero, Nat.mod_self, Nat.add_zero]
    exact h0
  · have hlt : nb % align < align := Nat.mod_lt _ (by omega)
    have hsub : (align - nb % align) % align = align - nb % align :=
      Nat.mod_eq_of_lt (by omega)
    rw [hsub, Nat.add_mod, hsub]
    have : nb % align + (align - nb % align) = align := by omega
    rw [this, Nat.mod_self]

theorem smallAllocFuel_aligned (size align : Nat) :
    ∀ (fuel : Nat) (a : Allocator) (st : BlockStore) (addr : Nat),
    (Allocator.smallAllocFuel fuel a st size align).1 = .ok addr → addr % align = 0 := by
  intro fuel
  induction fuel with
  | zero =>
    intro a st addr h
    simp [Allocator.smallAllocFuel] at h
  | succ n ih =>
    intro a st addr h
    rw [Allocator.smallAllocFuel] at h
    rcases hhead : a.head with _ | hb
    · have hha : a.head_alloc size align = (none, a) := by
        simp [Allocator.head_alloc, hhead]
      rw [hha] at h
      dsimp only at h
      rcases hg : a.get_new_head st with ⟨r, a'', st'⟩
      rw [hg] at h
      rcases r with e | u
      · simp at h
      · dsimp only at h
        exact ih _ _ _ h
    · have hha : a.head_alloc size align =
          ((hb.inner_alloc size align).1,
           { a with head := some (hb.inner_alloc size align).2 }) := by
        simp [Allocator.head_alloc, hhead]
      rw [hha] at h
      rcases hi : (hb.inner_alloc size align).1 with _ | ptr
      · rw [hi] at h
        dsimp only at h
        rcases hg : Allocator.get_new_head
            { a with head := some (hb.inner_alloc size align).2 } st with ⟨r, a'', st'⟩
        rw [hg] at h
        rcases r with e | u
        · simp at h
        · dsimp only at h
          exact ih _ _ _ h
      · rw [hi] at h
        dsimp only at h
        rw [AllocResult.ok.injEq] at h
        rw [← h]
        exact inner_alloc_aligned hb size align ptr hi

theorem mediumAllocFuel_aligned (size align : Nat) :
    ∀ (fuel : Nat) (a : Allocator) (st : BlockStore) (addr : Nat),
    (Allocator.mediumAllocFuel fuel a st size align).1 = .ok addr → addr % align = 0 := by
  intro fuel
  induction fuel with
  | zero =>
    intro a st addr h
    simp [Allocator.mediumAllocFuel] at h
  | succ n ih =>
    intro a st addr h
    rw [Allocator.mediumAllocFuel] at h
    rcases hov : a.overflow with _ | ob
    · have hha : a.overflow_alloc size align = (none, a) := by
        simp [Allocator.overflow_alloc, hov]
      rw [hha] at h
      dsimp only at h
      rcases hg : a.get_new_overflow st with ⟨r, a'', st'⟩
      rw [hg] at h
      rcases r with e | u
      · simp at h
      · dsimp only at h
        exact ih _ _ _ h
    · have hha : a.overflow_alloc size align =
          ((ob.inner_alloc size align).1,
           { a with overflow := some (ob.inner_alloc size align).2 }) := by
        simp [Allocator.overflow_alloc, hov]
      rw [hha] at h
      rcases hi : (ob.inner_alloc size align).1 with _ | ptr
      · rw [hi] at h
        dsimp only at h
        rcases hg : Allocator.get_new_overflow
            { a with overflow := some (ob.inner_alloc size align).2 } st with ⟨r, a'', st'⟩
        rw [hg] at h
        rcases r with e | u
        · simp at h
        · dsimp only at h
          exact ih _ _ _ h
      · rw [hi] at h
        dsimp only at h
        rw [AllocResult.ok.injEq] at h
        rw [← h]
        exact inner_alloc_aligned ob size align ptr hi

theorem create_large_aligned (st : BlockStore) (size align addr : Nat) (halign : 1 ≤ align)
    (h : (st.create_large size align).1 = .ok addr) : addr % align = 0 := by
  by_cases h0 : st.osSupply = 0
  · simp [BlockStore.create_large, h0] at h
  · simp only [BlockStore.create_large, if_neg h0, Except.ok.injEq] at h
    rw [← h]
    exact alignUp_mod st.nextBase align halign

/-- C5: every pointer returned by a successful `alloc(layout)` is aligned:
`p mod layout.align = 0` (for the power-of-two alignments `Layout` carries).
This holds for an arbitrary data-region base — `inner_alloc` aligns the
absolute address, not the block-local cursor. -/
theorem C5_alloc_aligned (fuel : Nat) (a : Allocator) (st : BlockStore)
    (size align addr : Nat) (hpow : ∃ k, align = 2 ^ k)
    (h : (Allocator.alloc fuel a st size align).1 = .ok addr) : addr % align = 0 := by
  obtain ⟨k, rfl⟩ := hpow
  have halign : 1 ≤ 2 ^ k := Nat.one_le_pow k 2 (by norm_num)
  unfold Allocator.alloc at h
  by_cases h0 : size = 0
  · rw [if_pos h0] at h
    simp at h
  · rw [if_neg h0] at h
    rcases hsc : SizeClass.get_for_size size with e | c
    · rw [hsc] at h
      simp at h
    · rw [hsc] at h
      cases c with
      | Small => exact smallAllocFuel_aligned size _ fuel a st addr h
      | Medium => exact mediumAllocFuel_aligned size _ fuel a st addr h
      | Large =>
        rcases hcl : st.create_large size (2 ^ k) with ⟨r, st'⟩
        rw [hcl] at h
        rcases r with e | p
        · simp at h
        · simp only [AllocResult.ok.injEq] at h
          rw [← h]
          refine create_large_aligned st size (2 ^ k) p halign ?_
          rw [hcl]

/-- C5 witness: a small allocation with alignment 8 from a fresh store. -/
theorem C5_alloc_aligned_witness :
    (Allocator.alloc 3 emptyAllocator (emptyStore 1) 8 8).1 = .ok 32760 ∧ 32760 % 8 = 0 :=
  ⟨by decide,
   C5_alloc_aligned 3 emptyAllocator (emptyStore 1) 8 8 32760 ⟨3, by norm_num⟩ (by decide)⟩

/-! ### Alignment above `BLOCK_SIZE` (C6) -/

/-- On any block whose data region starts `META_CAPACITY = 257` bytes past a
`BLOCK_SIZE`-aligned base and whose cursor is inside the data region,
`inner_alloc` with `align = 2·BLOCK_SIZE = 65536` fails immediately and leaves
the block untouched: the align-down adjustment always exceeds the candidate
offset, so `checked_sub` underflows. -/
theorem innerAllocFuel_bigAlign_none (b : BumpBlock) (hb : BlockOk b) :
    ∀ fuel, BumpBlock.innerAllocFuel fuel b 8 65536 = (none, b) := by
  intro fuel
  cases fuel with
  | zero => rfl
  | succ n =>
    unfold BumpBlock.innerAllocFuel
    by_cases h1 : 8 ≤ b.cursor
    · rw [checkedSub_eq_some _ _ h1]
      dsimp only
      have hcur : b.cursor ≤ 32512 := by
        have := hb.1
        simpa [BLOCK_CAPACITY, BLOCK_SIZE, LINE_COUNT, LINE_SIZE] using this
      have hdb : b.block.dataBase % 32768 = 257 := by
        have := hb.2
        simpa [BLOCK_SIZE, META_CAPACITY, LINE_COUNT, LINE_SIZE] using this
      have hps : b.cursor - 8 ≤ 32504 := by omega
      -- the adjustment is the mod-65536 residue, which exceeds the offset
      have hadj : b.block.dataBase + (b.cursor - 8) -
          alignDown (b.block.dataBase + (b.cursor - 8)) 65536 =
          (b.block.dataBase + (b.cursor - 8)) % 65536 := by
        have := Nat.mod_le (b.block.dataBase + (b.cursor - 8)) 65536
        simp only [alignDown]
        omega
      have h32 : (b.block.dataBase + (b.cursor - 8)) % 65536 % 32768 =
          (b.block.dataBase + (b.cursor - 8)) % 32768 :=
        Nat.mod_mod_of_dvd _ ⟨2, by norm_num⟩
      have hpa32 : (b.block.dataBase + (b.cursor - 8)) % 32768 = 257 + (b.cursor - 8) := by
        rw [Nat.add_mod, hdb, Nat.mod_eq_of_lt (by omega : b.cursor - 8 < 32768)]
        exact Nat.mod_eq_of_lt (by omega)
      have hkey : ¬ (b.block.dataBase + (b.cursor - 8) -
          alignDown (b.block.dataBase + (b.cursor - 8)) 65536 ≤ b.cursor - 8) := by
        rw [hadj]
        have hle := Nat.mod_le ((b.block.dataBase + (b.cursor - 8)) % 65536) 32768
        omega
      rw [checkedSub_eq_none _ _ hkey]
    · rw [checkedSub_eq_none _ _ h1]

theorem inner_alloc_bigAlign_none (b : BumpBlock) (hb : BlockOk b) :
    b.inner_alloc 8 65536 = (none, b) :=
  innerAllocFuel_bigAlign_none b hb _

/-- A head refill on a well-based state either succeeds with a well-based
state again, or fails with `OOM` leaving the windows untouched. -/
theorem get_new_head_cases (a : Allocator) (st : BlockStore) (hwb : WellBased a st) :
    (∃ a' st', a.get_new_head st = (.ok (), a', st') ∧ WellBased a' st') ∨
    a.get_new_head st = (.error .OOM, a, { st with block_count := st.block_count + 1 }) := by
  obtain ⟨hwhead, hwover, hwrec, hwfree, hwnext⟩ := hwb
  have hpush : ∀ s : BlockStore,
      (match a.head with
       | some old => s.pushRest old
       | none => s).recycle = s.recycle ∧
      (match a.head with
       | some old => s.pushRest old
       | none => s).free = s.free ∧
      (match a.head with
       | some old => s.pushRest old
       | none => s).nextBase = s.nextBase := by
    intro s
    rcases a.head with _ | old <;> exact ⟨rfl, rfl, rfl⟩
  rcases hov : a.overflow with _ | ob
  · rcases hrec : st.recycle with _ | ⟨rb, rtl⟩
    · rcases hfree : st.free with _ | ⟨fb, ftl⟩
      · by_cases hos : st.osSupply = 0
        · right
          simp [Allocator.get_new_head, BlockStore.get_head, BlockStore.get_overflow,
            BlockStore.new_block, hov, hrec, hfree, hos]
        · left
          have hnewok : BlockOk (BumpBlock.new st.nextBase) := by
            refine ⟨by simp [BumpBlock.new], ?_⟩
            simpa [BumpBlock.new] using hwnext
          set st1 : BlockStore :=
            { st with block_count := st.block_count + 1,
                      osSupply := st.osSupply - 1,
                      nextBase := st.nextBase + BLOCK_SIZE } with hst1
          refine ⟨{ head := some (BumpBlock.new st.nextBase), overflow := none },
            (match a.head with
             | some old => st1.pushRest old
             | none => st1), ?_, ?_⟩
          · simp only [Allocator.get_new_head, BlockStore.get_head, BlockStore.get_overflow,
              BlockStore.new_block, hov, hrec, hfree, if_neg hos, hst1]
          · obtain ⟨hr, hf, hn⟩ := hpush st1
            refine ⟨?_, ?_, ?_, ?_, ?_⟩
            · intro b hbh
              injection hbh with hbh
              exact hbh ▸ hnewok
            · intro b hbh
              exact absurd hbh (by simp)
            · intro b hbm
              rw [hr] at hbm
              simp [hst1, hrec] at hbm
            · intro b hbm
              rw [hf] at hbm
              simp [hst1, hfree] at hbm
            · rw [hn]
              simp only [hst1]
              simpa [BLOCK_SIZE] using hwnext
      · -- pop from free
        left
        have hfbok : BlockOk fb := hwfree fb (by simp [hfree])
        set st1 : BlockStore := { st with free := ftl } with hst1
        refine ⟨{ head := some fb, overflow := none },
          (match a.head with
           | some old => st1.pushRest old
           | none => st1), ?_, ?_⟩
        · simp only [Allocator.get_new_head, BlockStore.get_head, BlockStore.get_overflow,
            hov, hrec, hfree, hst1]
        · obtain ⟨hr, hf, hn⟩ := hpush st1
          refine ⟨?_, ?_, ?_, ?_, ?_⟩
          · intro b hbh
            injection hbh with hbh
            exact hbh ▸ hfbok
          · intro b hbh
            exact absurd hbh (by simp)
          · intro b hbm
            rw [hr] at hbm
            simp [hst1, hrec] at hbm
          · intro b hbm
            rw [hf] at hbm
            refine hwfree b ?_
            simp only [hst1] at hbm
            simp [hfree, hbm]
          · rw [hn]
            exact hwnext
    · -- pop from recycle
      left
      have hrbok : BlockOk rb := hwrec rb (by simp [hrec])
      set st1 : BlockStore := { st with recycle := rtl } with hst1
      refine ⟨{ head := some rb, overflow := none },
        (match a.head with
         | some old => st1.pushRest old
         | none => st1), ?_, ?_⟩
      · simp only [Allocator.get_new_head, BlockStore.get_head, hov, hrec, hst1]
      · obtain ⟨hr, hf, hn⟩ := hpush st1
        refine ⟨?_, ?_, ?_, ?_, ?_⟩
        · intro b hbh
          injection hbh with hbh
          exact hbh ▸ hrbok
        · intro b hbh
          exact absurd hbh (by simp)
        · intro b hbm
          rw [hr] at hbm
          refine hwrec b ?_
          simp only [hst1] at hbm
          simp [hrec, hbm]
        · intro b hbm
          rw [hf] at hbm
          exact hwfree b hbm
        · rw [hn]
          exact hwnext
  · -- promote the overflow window
    left
    have hobok : BlockOk ob := hwover ob hov
    refine ⟨{ head := some ob, overflow := none },
      (match a.head with
       | some old => st.pushRest old
       | none => st), ?_, ?_⟩
    · simp only [Allocator.get_new_head, hov]
    · obtain ⟨hr, hf, hn⟩ := hpush st
      refine ⟨?_, ?_, ?_, ?_, ?_⟩
      · intro b hbh
        injection hbh with hbh
        exact hbh ▸ hobok
      · intro b hbh
        exact absurd hbh (by simp)
      · intro b hbm
        rw [hr] at hbm
        exact hwrec b hbm
      · intro b hbm
        rw [hf] at hbm
        exact hwfree b hbm
      · rw [hn]
        exact hwnext

/-- The small-allocation loop with `align = 65536` on a well-based state never
returns a pointer and never reports `AllocOverflow`: within any fuel bound it
is either still running (`outOfFuel`) or has died on an OS `OOM` while
fruitlessly pulling fresh blocks. -/
theorem smallAllocFuel_bigAlign (fuel : Nat) :
    ∀ (a : Allocator) (st : BlockStore), WellBased a st →
    (Allocator.smallAllocFuel fuel a st 8 65536).1 = .outOfFuel ∨
    (Allocator.smallAllocFuel fuel a st 8 65536).1 = .err .OOM := by
  induction fuel with
  | zero =>
    intro a st _
    exact Or.inl rfl
  | succ n ih =>
    intro a st hwb
    rw [Allocator.smallAllocFuel]
    have hha : a.head_alloc 8 65536 = (none, a) := by
      rcases hhead : a.head with _ | hb
      · simp [Allocator.head_alloc, hhead]
      · simp only [Allocator.head_alloc, hhead,
          inner_alloc_bigAlign_none hb (hwb.1 hb hhead)]
        cases a
        simp_all
    rw [hha]
    dsimp only
    rcases get_new_head_cases a st hwb with ⟨a', st', heq, hwb'⟩ | heq
    · rw [heq]
      dsimp only
      exact ih a' st' hwb'
    · rw [heq]
      exact Or.inr rfl

/-- C6: a small request with `align = 65536 > BLOCK_SIZE` never makes
`Allocator::alloc` return `AllocOverflow` — for every refill-fuel bound the
call is either still looping (pulling ever more blocks from the store) or has
failed with `OOM` once the OS refuses memory.  (The claimed `AllocOverflow`
is unreachable: no alignment check exists on this path.) -/
theorem C6_alloc_bigAlign_no_overflow (fuel : Nat) (a : Allocator) (st : BlockStore)
    (hwb : WellBased a st) :
    (Allocator.alloc fuel a st 8 65536).1 = .outOfFuel ∨
    (Allocator.alloc fuel a st 8 65536).1 = .err .OOM := by
  have h8 : SizeClass.get_for_size 8 = .ok .Small := rfl
  unfold Allocator.alloc
  rw [if_neg (by norm_num), h8]
  exact smallAllocFuel_bigAlign fuel a st hwb

/-- C6 witness: the well-based hypothesis discharged at an empty allocator and
an empty store whose OS refuses further blocks. -/
theorem C6_alloc_bigAlign_no_overflow_witness :
    (Allocator.alloc 5 emptyAllocator (emptyStore 0) 8 65536).1 = .outOfFuel ∨
    (Allocator.alloc 5 emptyAllocator (emptyStore 0) 8 65536).1 = .err .OOM :=
  C6_alloc_bigAlign_no_overflow 5 emptyAllocator (emptyStore 0)
    (by
      refine ⟨?_, ?_, ?_, ?_, rfl⟩ <;>
        simp [emptyAllocator, emptyStore])

/-! ### Size classification and dispatch (C7) -/

/-- C7: the (spec-modelled) classifier partitions sizes exactly as claimed —
Small on `[1, LINE_SIZE]`, Medium on `(LINE_SIZE, DATA_CAPACITY]`, Large on
`(DATA_CAPACITY, u32::MAX]`, `AllocOverflow` on `0` and above `u32::MAX` —
and `alloc` dispatches Small to the head loop, Medium to the overflow loop and
Large to `create_large`.  However, a request of size 0 does *not* make `alloc`
return `Err(AllocOverflow)`: the always-on `assert!(layout.size() > 0)` fires
first, so the call panics. -/
theorem C7_classification_and_dispatch :
    (∀ size : Nat,
      (SizeClass.get_for_size size = .ok .Small ↔ 1 ≤ size ∧ size ≤ SMALL_OBJECT_MAX) ∧
      (SizeClass.get_for_size size = .ok .Medium ↔
        SMALL_OBJECT_MAX < size ∧ size ≤ MEDIUM_OBJECT_MAX) ∧
      (SizeClass.get_for_size size = .ok .Large ↔
        MEDIUM_OBJECT_MAX < size ∧ size ≤ MAX_ALLOC_SIZE) ∧
      (SizeClass.get_for_size size = .error .AllocOverflow ↔
        size = 0 ∨ MAX_ALLOC_SIZE < size)) ∧
    (∀ (fuel : Nat) (a : Allocator) (st : BlockStore) (align : Nat),
      (Allocator.alloc fuel a st 0 align).1 = .panicked) ∧
    (∀ (fuel : Nat) (a : Allocator) (st : BlockStore) (size align : Nat),
      SizeClass.get_for_size size = .ok .Small →
      Allocator.alloc fuel a st size align = Allocator.smallAllocFuel fuel a st size align) ∧
    (∀ (fuel : Nat) (a : Allocator) (st : BlockStore) (size align : Nat),
      SizeClass.get_for_size size = .ok .Medium →
      Allocator.alloc fuel a st size align = Allocator.mediumAllocFuel fuel a st size align) ∧
    (∀ (fuel : Nat) (a : Allocator) (st : BlockStore) (size align : Nat),
      SizeClass.get_for_size size = .ok .Large →
      Allocator.alloc fuel a st size align =
        (match st.create_large size align with
         | (.ok p, st') => (.ok p, a, st')
         | (.error e, st') => (.err e, a, st'))) := by
  have eS : SMALL_OBJECT_MAX = 128 := rfl
  have eM : MEDIUM_OBJECT_MAX = 32512 := rfl
  have eX : MAX_ALLOC_SIZE = 4294967295 := rfl
  have eL : LARGE_OBJECT_MAX = 4294967295 := rfl
  have hzero : ∀ size : Nat, size = 0 →
      SizeClass.get_for_size size = .error .AllocOverflow := by
    intro size h
    subst h
    rfl
  refine ⟨?_, ?_, ?_, ?_, ?_⟩
  · intro size
    unfold SizeClass.get_for_size
    split_ifs with h1 h2 h3 h4 <;> refine ⟨?_, ?_, ?_, ?_⟩ <;>
      simp_all <;> omega
  · intro fuel a st align
    rfl
  · intro fuel a st size align hsc
    have h0 : size ≠ 0 := by
      intro h
      rw [hzero size h] at hsc
      exact Except.noConfusion hsc
    unfold Allocator.alloc
    rw [if_neg h0, hsc]
  · intro fuel a st size align hsc
    have h0 : size ≠ 0 := by
      intro h
      rw [hzero size h] at hsc
      exact Except.noConfusion hsc
    unfold Allocator.alloc
    rw [if_neg h0, hsc]
  · intro fuel a st size align hsc
    have h0 : size ≠ 0 := by
      intro h
      rw [hzero size h] at hsc
      exact Except.noConfusion hsc
    unfold Allocator.alloc
    rw [if_neg h0, hsc]

/-- C7 witness: the classifier and dispatch at concrete sizes, and the size-0
panic at a concrete state. -/
theorem C7_classification_and_dispatch_witness :
    SizeClass.get_for_size 64 = .ok .Small ∧
    SizeClass.get_for_size 1000 = .ok .Medium ∧
    SizeClass.get_for_size 40000 = .ok .Large ∧
    SizeClass.get_for_size 0 = .error .AllocOverflow ∧
    (Allocator.alloc 1 emptyAllocator (emptyStore 0) 0 1).1 = .panicked ∧
    Allocator.alloc 1 emptyAllocator (emptyStore 0) 64 1 =
      Allocator.smallAllocFuel 1 emptyAllocator (emptyStore 0) 64 1 :=
  ⟨((C7_classification_and_dispatch.1 64).1).mpr (by decide),
   ((C7_classification_and_dispatch.1 1000).2.1).mpr (by decide),
   ((C7_classification_and_dispatch.1 40000).2.2.1).mpr (by decide),
   ((C7_classification_and_dispatch.1 0).2.2.2).mpr (Or.inl rfl),
   C7_classification_and_dispatch.2.1 1 emptyAllocator (emptyStore 0) 1,
   C7_classification_and_dispatch.2.2.1 1 emptyAllocator (emptyStore 0) 64 1 rfl⟩

/-! ### Failed allocations and allocator state (C8) -/

/-- C8 counterexample: a failing `alloc` can leave the allocator *changed*.
The head window is exhausted, the store's recycle pool holds one exhausted
block and the OS refuses new blocks.  `small_alloc` fails on the head, refills
the head from recycle (pushing the old head to the store's rest pool), fails
again, and only then hits `OOM`.  The error is returned with a different head
window (data base 33025 instead of 257), the old head pushed to `rest` and
the recycle pool drained — not the untouched state the claim requires. -/
theorem C8_failed_alloc_counterexample :
    (Allocator.alloc 10 c8alloc c8store 8 1).1 = .err .OOM ∧
    ((Allocator.alloc 10 c8alloc c8store 8 1).2.1.head.map
      (fun b => b.block.dataBase)) = some 33025 ∧
    (c8alloc.head.map (fun b => b.block.dataBase)) = some 257 ∧
    (Allocator.alloc 10 c8alloc c8store 8 1).2.2.rest.length = 1 ∧
    c8store.rest.length = 0 ∧
    (Allocator.alloc 10 c8alloc c8store 8 1).2.2.recycle.length = 0 ∧
    c8store.recycle.length = 1 := by
  decide

/-- C8 amended: an `alloc` failure that occurs before any window is touched
leaves the allocator and the store unchanged — classification failures
(`size > u32::MAX` yields `AllocOverflow`) and large-path OOM return the state
as-is.  (When OOM strikes during a head/overflow refill, the partially
completed refill is kept: the allocator may hold a replacement window and the
displaced window may have been pushed to the store, as the counterexample
shows.) -/
theorem C8_error_frame (fuel : Nat) (a : Allocator) (st : BlockStore) (size align : Nat) :
    (MAX_ALLOC_SIZE < size →
      Allocator.alloc fuel a st size align = (.err .AllocOverflow, a, st)) ∧
    (LARGE_OBJECT_MIN ≤ size → size ≤ MAX_ALLOC_SIZE → st.osSupply = 0 →
      Allocator.alloc fuel a st size align = (.err .OOM, a, st)) := by
  have eS : SMALL_OBJECT_MAX = 128 := rfl
  have eM : MEDIUM_OBJECT_MAX = 32512 := rfl
  have eX : MAX_ALLOC_SIZE = 4294967295 := rfl
  have eL : LARGE_OBJECT_MAX = 4294967295 := rfl
  have eLm : LARGE_OBJECT_MIN = 32513 := rfl
  constructor
  · intro h
    have h0 : size ≠ 0 := by omega
    have hsc : SizeClass.get_for_size size = .error .AllocOverflow := by
      unfold SizeClass.get_for_size
      rw [if_neg h0, if_neg (by omega), if_neg (by omega), if_neg (by omega)]
    unfold Allocator.alloc
    rw [if_neg h0, hsc]
  · intro hmin hmax hos
    have h0 : size ≠ 0 := by omega
    have hsc : SizeClass.get_for_size size = .ok .Large := by
      unfold SizeClass.get_for_size
      rw [if_neg h0, if_neg (by omega), if_neg (by omega), if_pos (by omega)]
    have hcl : st.create_large size align = (.error .OOM, st) := by
      unfold BlockStore.create_large
      rw [if_pos hos]
    unfold Allocator.alloc
    rw [if_neg h0, hsc, hcl]

/-- C8 witness: the frame equalities at concrete failing inputs. -/
theorem C8_error_frame_witness :
    Allocator.alloc 1 emptyAllocator (emptyStore 0) 4294967296 1 =
      (.err .AllocOverflow, emptyAllocator, emptyStore 0) ∧
    Allocator.alloc 1 emptyAllocator (emptyStore 0) 40000 1 =
      (.err .OOM, emptyAllocator, emptyStore 0) :=
  ⟨(C8_error_frame 1 emptyAllocator (emptyStore 0) 4294967296 1).1 (by decide),
   (C8_error_frame 1 emptyAllocator (emptyStore 0) 40000 1).2 (by decide) (by decide) rfl⟩

end Nimix
